import Mathlib

/-!
Verification development for the KFsort document-processing program
(source: KFsort6.py).  Python strings are modelled as `List Char`
(ASCII semantics for the character classes the program uses), Python
ints as `ℤ` (quantities) and `ℕ` (indices), and PDF coordinates as `ℚ`.
Each definition is a shallow embedding of the like-named Python
function; structures mirror the dictionaries the program threads
between its phases.
-/

namespace KF

abbrev Str := List Char

/-- Whitespace as matched by the program's uses of `\s` / `str.strip`
(ASCII part: space, tab, newline, vertical tab, form feed, carriage
return). -/
def isPyWS (c : Char) : Bool :=
  c = ' ' ∨ c = '\t' ∨ c = '\n' ∨ c = Char.ofNat 11 ∨ c = Char.ofNat 12 ∨ c = '\r'

def isStar (c : Char) : Bool := c = '*'

/-- `str.strip()` : drop leading and trailing whitespace. -/
def pyStrip (l : Str) : Str :=
  ((l.dropWhile isPyWS).reverse.dropWhile isPyWS).reverse

/-- Worker for `re.sub(r'\s+', ' ', s)` : the flag records whether we
are inside a whitespace run that has already emitted its single space. -/
def collapseAux : Bool → Str → Str
  | _, [] => []
  | b, c :: cs =>
    if isPyWS c then
      if b then collapseAux true cs else ' ' :: collapseAux true cs
    else c :: collapseAux false cs

/-- `re.sub(r'\s+', ' ', s)` : every maximal whitespace run becomes one space. -/
def collapseWS (l : Str) : Str := collapseAux false l

/-- `re.sub(r'^\*+|\*+$', '', s)` : trim leading and trailing asterisks. -/
def starTrim (l : Str) : Str :=
  ((l.dropWhile isStar).reverse.dropWhile isStar).reverse

def upperLowerTable : List (Char × Char) :=
  [('A', 'a'), ('B', 'b'), ('C', 'c'), ('D', 'd'), ('E', 'e'), ('F', 'f'),
   ('G', 'g'), ('H', 'h'), ('I', 'i'), ('J', 'j'), ('K', 'k'), ('L', 'l'),
   ('M', 'm'), ('N', 'n'), ('O', 'o'), ('P', 'p'), ('Q', 'q'), ('R', 'r'),
   ('S', 's'), ('T', 't'), ('U', 'u'), ('V', 'v'), ('W', 'w'), ('X', 'x'),
   ('Y', 'y'), ('Z', 'z')]

/-- `str.lower()` restricted to ASCII letters (the only case the
program's vocabulary exercises). -/
def asciiLower (c : Char) : Char :=
  ((upperLowerTable.find? (fun p => p.1 = c)).map (fun p => p.2)).getD c

/-- `canon(s)`: empty guard, strip, collapse whitespace, trim
surrounding asterisks, lowercase — exactly the source's pipeline. -/
def canon (s : Str) : Str :=
  if s = [] then [] else (starTrim (collapseWS (pyStrip s))).map asciiLower

/-- The four `_PREDETERMINED_WOBBLERS_CANON` entries. -/
def PREDETERMINED_WOBBLERS_CANON : List Str :=
  [("shelf wobbler kit; alcohol version").toList,
   ("candy; counter kit").toList,
   ("shelf wobbler kit; non-alcohol version").toList,
   ("candy; shipper kit").toList]

def is_predetermined_wobbler (promo : Str) : Bool :=
  PREDETERMINED_WOBBLERS_CANON.contains (canon promo)

def KIT_COUNTER : Str := ("*CANDY; COUNTER KIT*").toList
def KIT_SHIPPER : Str := ("*CANDY; SHIPPER KIT*").toList
def KIT_ALC : Str := ("*Shelf Wobbler Kit; Alcohol Version*").toList
def KIT_NONALC : Str := ("*Shelf Wobbler Kit; Non-Alcohol Version*").toList

def TYPE_SHELF_WOBBLER_CANON : Str := canon (("Shelf Wobbler").toList)

/-- Substring containment, Python's `needle in hay`. -/
def containsSub (needle hay : Str) : Bool :=
  hay.tails.any (fun t => needle.isPrefixOf t)

-- ---------------------------------------------------------------------------
-- Header-page detection (`HEADER_STORE_RE = re.compile(r'Store:\s?[A-Z]\d{4}')`,
-- `is_header_page = bool(HEADER_STORE_RE.search(text))`).

def isUpperA (c : Char) : Bool := 'A' ≤ c ∧ c ≤ 'Z'

def isDigitA (c : Char) : Bool := '0' ≤ c ∧ c ≤ '9'

def sStoreColon : Str := ("Store:").toList

/-- One uppercase letter followed by four digits, at the head of the list
(`[A-Z]\d{4}` at the current position; trailing text is unconstrained,
as under `re.search`). -/
def headerTail : Str → Bool
  | c :: d1 :: d2 :: d3 :: d4 :: _ =>
    isUpperA c && isDigitA d1 && isDigitA d2 && isDigitA d3 && isDigitA d4
  | _ => false

/-- Does the pattern `Store:\s?[A-Z]\d{4}` match starting exactly here?
`\s?` consumes one whitespace character or none. -/
def headerAt (l : Str) : Bool :=
  sStoreColon.isPrefixOf l &&
    (let r := l.drop 6
     headerTail r ||
       match r with
       | c :: r2 => isPyWS c && headerTail r2
       | [] => false)

/-- `re.search` tries every start position left to right. -/
def is_header_page (text : Str) : Bool :=
  text.tails.any headerAt

-- ---------------------------------------------------------------------------
-- Column detection (`detect_columns`).  A page is reduced to its width and
-- the three `page.search_for` result lists; PyMuPDF rectangles are four
-- rationals, falsy exactly when all four coordinates are zero.

structure PRect where
  x0 : ℚ
  y0 : ℚ
  x1 : ℚ
  y1 : ℚ
deriving DecidableEq

/-- PyMuPDF `Rect.__bool__`: a rectangle is truthy unless every
coordinate is zero. -/
def rectTruthy (r : PRect) : Bool :=
  decide (¬ (r.x0 = 0 ∧ r.y0 = 0 ∧ r.x1 = 0 ∧ r.y1 = 0))

structure Cols where
  x_promo_left : ℚ
  x_qty_left : ℚ
  header_bottom : ℚ
deriving DecidableEq

/-- Python's `max(l or [0])`. -/
def pymaxD : List ℚ → ℚ
  | [] => 0
  | x :: xs => xs.foldl max x

/-- `detect_columns(page)`: `w` is the page width, `rs`, `rp`, `rq` the
`search_for` results for "Sign Type", "Promotion Name", "Qty Ordered".
Missing promo/qty anchors fall back to fixed fractional-width rectangles
(whose bottom edge is 20); `header_bottom` is the maximum `y1` over the
truthy rectangles, `0` if there are none. -/
def detect_columns (w : ℚ) (rs rp rq : List PRect) : Cols :=
  let rect_sign : Option PRect := rs.head?
  let rect_promo : PRect := (rp.head?).getD ⟨w * (25/100), 0, w * (55/100), 20⟩
  let rect_qty : PRect := (rq.head?).getD ⟨w * (80/100), 0, w * (95/100), 20⟩
  let ys : List ℚ :=
    (([rect_sign, some rect_promo, some rect_qty].filterMap id).filter rectTruthy).map
      (fun r => r.y1)
  { x_promo_left := rect_promo.x0
    x_qty_left := rect_qty.x0
    header_bottom := pymaxD ys }

-- ---------------------------------------------------------------------------
-- Data model.  `Item` mirrors the `{'type','promo','qty'}` dicts built by the
-- item extractor, `Store` the store dicts after `s['items']` is attached.

structure Item where
  type : Str
  promo : Str
  qty : ℤ
deriving DecidableEq

structure Store where
  store_id : Str := []
  store_name : Str := []
  items : List Item := []
deriving DecidableEq

-- ---------------------------------------------------------------------------
-- Wobbler-kit grouping (`group_wobbler_kits`).

/-- Python's ordering on `(str, int)` tuples: lexicographic, strings
compared by code point. -/
def pairLe (x y : Str × ℤ) : Prop :=
  x.1 < y.1 ∨ (x.1 = y.1 ∧ x.2 ≤ y.2)

instance : DecidableRel pairLe := fun x y => by
  unfold pairLe; infer_instance

instance : IsTotal (Str × ℤ) pairLe where
  total x y := by
    rcases lt_trichotomy x.1 y.1 with h | h | h
    · exact Or.inl (Or.inl h)
    · rcases le_total x.2 y.2 with h2 | h2
      · exact Or.inl (Or.inr ⟨h, h2⟩)
      · exact Or.inr (Or.inr ⟨h.symm, h2⟩)
    · exact Or.inr (Or.inl h)

instance : IsTrans (Str × ℤ) pairLe where
  trans x y z hxy hyz := by
    rcases hxy with h1 | ⟨e1, le1⟩
    · rcases hyz with h2 | ⟨e2, _⟩
      · exact Or.inl (lt_trans h1 h2)
      · exact Or.inl (e2 ▸ h1)
    · rcases hyz with h2 | ⟨e2, le2⟩
      · exact Or.inl (e1 ▸ h2)
      · exact Or.inr ⟨e1.trans e2, le_trans le1 le2⟩

instance : IsAntisymm (Str × ℤ) pairLe where
  antisymm x y hxy hyx := by
    rcases hxy with h1 | ⟨e1, le1⟩
    · rcases hyx with h2 | ⟨e2, _⟩
      · exact absurd h2 (lt_asymm h1)
      · exact absurd h1 (e2 ▸ lt_irrefl y.1)
    · rcases hyx with h2 | ⟨_, le2⟩
      · exact absurd h2 (e1 ▸ lt_irrefl x.1)
      · exact Prod.ext e1 (le_antisymm le1 le2)

/-- `sorted(wob)` : Python's stable ascending sort on the pair order. -/
def sortPairs (l : List (Str × ℤ)) : List (Str × ℤ) :=
  List.insertionSort pairLe l

abbrev Sig := List (Str × ℤ)

/-- `rep_text.setdefault(k, v)` on an insertion-ordered association list. -/
def odSetdefault (m : List (Str × Str)) (k v : Str) : List (Str × Str) :=
  match m with
  | [] => [(k, v)]
  | (k2, v2) :: rest =>
    if k2 = k then (k2, v2) :: rest else (k2, v2) :: odSetdefault rest k v

/-- `combos.setdefault(key, []).append(v)` on an insertion-ordered
association list. -/
def odAppend (m : List (Sig × List (Str × Str))) (k : Sig) (v : Str × Str) :
    List (Sig × List (Str × Str)) :=
  match m with
  | [] => [(k, [v])]
  | (k2, l) :: rest =>
    if k2 = k then (k2, l ++ [v]) :: rest else (k2, l) :: odAppend rest k v

/-- First-match association lookup (`dict.__getitem__` / `get`). -/
def odLookup (m : List (Str × Str)) (k : Str) : Option Str :=
  match m with
  | [] => none
  | (k2, v2) :: rest => if k2 = k then some v2 else odLookup rest k

/-- Association lookup on the signature-keyed `combos` dictionary. -/
def odLookupSig (m : List (Sig × List (Str × Str))) (k : Sig) :
    Option (List (Str × Str)) :=
  match m with
  | [] => none
  | (k2, v2) :: rest => if k2 = k then some v2 else odLookupSig rest k

/-- One item of the per-store loop: skip non-wobbler and predetermined
items, otherwise record the first-seen display text and accumulate the
`(canonical promo, qty)` pair. -/
def wobStep (st : List (Str × Str) × List (Str × ℤ)) (it : Item) :
    List (Str × Str) × List (Str × ℤ) :=
  if canon it.type ≠ TYPE_SHELF_WOBBLER_CANON then st
  else if is_predetermined_wobbler it.promo then st
  else
    let cp := canon it.promo
    (odSetdefault st.1 cp it.promo, st.2 ++ [(cp, it.qty)])

/-- The qualifying `(canonical promo, qty)` pairs of an item list, in
item order (the `wob` list of the source's first loop). -/
def storeWobPairs (items : List Item) : List (Str × ℤ) :=
  items.filterMap (fun it =>
    if canon it.type ≠ TYPE_SHELF_WOBBLER_CANON then none
    else if is_predetermined_wobbler it.promo then none
    else some (canon it.promo, it.qty))

structure RepCombos where
  rep : List (Str × Str) := []
  combos : List (Sig × List (Str × Str)) := []

/-- One store of the source's first loop: collect its wobbler pairs,
then (when it has at least two) group it under the sorted signature. -/
def kitStep (st : RepCombos) (s : Store) : RepCombos :=
  let rw := s.items.foldl wobStep (st.rep, [])
  if rw.2.length ≤ 1 then { rep := rw.1, combos := st.combos }
  else { rep := rw.1, combos := odAppend st.combos (sortPairs rw.2) (s.store_id, s.store_name) }

/-- The source's first loop: `rep_text` and the insertion-ordered
`combos` mapping signature to the `(store_id, store_name)` list. -/
def kitCombos (stores : List Store) : RepCombos :=
  stores.foldl kitStep {}

structure Kit where
  kit_name : Str
  items : List (Str × ℤ)
  stores : List Str
  store_ids : List Str
  store_count : ℕ
deriving DecidableEq

/-- Python's ascending `sorted` on strings. -/
def strLe (a b : Str) : Prop := a ≤ b

instance : DecidableRel strLe := fun a b => by
  unfold strLe; infer_instance

def sortStrs (l : List Str) : List Str := List.insertionSort strLe l

/-- The source's second loop: drop groups below `min_stores`, build the
kit record for the rest, numbering retained groups `idx, idx+1, ...`. -/
def buildKits (min_stores : ℕ) (rep : List (Str × Str)) :
    ℕ → List (Sig × List (Str × Str)) → List Kit
  | _, [] => []
  | idx, (key, store_list) :: rest =>
    if store_list.length < min_stores then buildKits min_stores rep idx rest
    else
      { kit_name := Nat.toDigits 10 idx
        items := key.map (fun pq => ((odLookup rep pq.1).getD [], pq.2))
        stores := sortStrs (store_list.map (fun sn => sn.2))
        store_ids := store_list.map (fun sn => sn.1)
        store_count := store_list.length } :: buildKits min_stores rep (idx + 1) rest

/-- `kits.sort(key=store_count, reverse=True)`, a stable descending sort. -/
def kitDescLe (a b : Kit) : Prop := b.store_count ≤ a.store_count

instance : DecidableRel kitDescLe := fun a b => by
  unfold kitDescLe; infer_instance

instance : IsTotal Kit kitDescLe where
  total a b := (le_total b.store_count a.store_count).imp id id

instance : IsTrans Kit kitDescLe where
  trans _ _ _ h1 h2 := le_trans h2 h1

/-- `dict[k] = v` with Python's overwrite-in-place semantics. -/
def dictInsert (m : List (Str × Str)) (k v : Str) : List (Str × Str) :=
  match m with
  | [] => [(k, v)]
  | (k2, v2) :: rest =>
    if k2 = k then (k2, v) :: rest else (k2, v2) :: dictInsert rest k v

/-- The `kit_by_store_id` map built after the final sort. -/
def kitByStoreId (kits : List Kit) : List (Str × Str) :=
  kits.foldl (fun m kit =>
    kit.store_ids.foldl (fun m2 sid => dictInsert m2 sid kit.kit_name) m) []

/-- `group_wobbler_kits(stores, min_stores)`. -/
def group_wobbler_kits (stores : List Store) (min_stores : ℕ) :
    List Kit × List (Str × Str) :=
  let rc := kitCombos stores
  let kits := List.insertionSort kitDescLe (buildKits min_stores rc.rep 1 rc.combos)
  (kits, kitByStoreId kits)

-- ---------------------------------------------------------------------------
-- Envelope fit (`compute_envelope_fit`) and sign-type collection
-- (`unique_sign_types`).

/-- A store dict after `s['fits_envelope']` has been written. -/
structure FStore where
  store : Store
  fits_envelope : Bool
deriving DecidableEq

/-- The flag the loop body assigns: `False` for an empty item list,
otherwise "every item's canonical type is in the canonicalized
will-fit set". -/
def envFlag (will_fit : List Str) (s : Store) : Bool :=
  if s.items.isEmpty then false
  else s.items.all (fun it => (will_fit.map canon).contains (canon it.type))

/-- `compute_envelope_fit(stores, fit_cfg)`: annotate every store with
its flag, return the `(fits, not_fits)` partition. -/
def compute_envelope_fit (stores : List Store) (will_fit : List Str) :
    List FStore × List FStore :=
  let flagged := stores.map (fun s => FStore.mk s (envFlag will_fit s))
  (flagged.filter (fun f => f.fits_envelope),
   flagged.filter (fun f => !f.fits_envelope))

/-- `unique_sign_types(stores)`: first-seen original spelling of each
distinct canonical sign type, in encounter order. -/
def unique_sign_types (stores : List Store) : List Str :=
  (stores.foldl (fun seen s =>
    s.items.foldl (fun seen2 it =>
      let st := pyStrip it.type
      if st ≠ [] ∧ ¬ (seen2.map (fun kv : Str × Str => kv.1)).contains (canon st)
      then seen2 ++ [(canon st, st)] else seen2) seen) []).map
    (fun kv => kv.2)

-- ---------------------------------------------------------------------------
-- Item extraction (`extract_items_from_pages`).  The geometric row
-- reconstruction (`iter_rows`) yields per-page streams of
-- `(type_text, promo_text, qty_text)` rows; the extractor is embedded
-- over those row streams, one list per page, state threaded across
-- pages exactly as in the source's nested loop.

structure Row where
  type_text : Str
  promo_text : Str
  qty_text : Str
deriving DecidableEq

/-- `qt.isdigit()` (ASCII model): nonempty and all decimal digits. -/
def pyIsdigit (l : Str) : Bool := !l.isEmpty && l.all isDigitA

/-- `int(qt)` for a digit string. -/
def pyIntOfDigits (l : Str) : ℕ :=
  l.foldl (fun n c => n * 10 + (c.toNat - 48)) 0

/-- `re.search(r'[a-z]+://|www\.', pr, re.I)`: some letter immediately
followed by `://`, or the substring `www.` (case-insensitive). -/
def urlish (pr : Str) : Bool :=
  let low := pr.map asciiLower
  low.tails.any (fun t =>
    (match t with
     | c :: rest => ('a' ≤ c && c ≤ 'z') && (("://").toList.isPrefixOf rest)
     | [] => false) || ("www.").toList.isPrefixOf t)

def sSignTypeTotal : Str := ("Sign Type Total").toList

structure ExState where
  items : List Item := []
  last_type : Option Str := none
  promo_buf : List Str := []

/-- One row of the extractor loop: carry `last_type` across blank type
cells, reset on a "Sign Type Total" row, emit an item when the qty cell
is a digit literal and a type is in scope, otherwise buffer promo
continuation text that does not look like a URL. -/
def exStep (st : ExState) (row : Row) : ExState :=
  let t := pyStrip row.type_text
  let pr := pyStrip row.promo_text
  let qt := pyStrip row.qty_text
  let lt := if t ≠ [] then some t else st.last_type
  if containsSub sSignTypeTotal (t ++ [' '] ++ pr) then
    { items := st.items, last_type := none, promo_buf := [] }
  else if pyIsdigit qt && lt.isSome then
    let full := pyStrip (List.intercalate [' ']
      ((st.promo_buf ++ [pr]).filter (fun p => !p.isEmpty)))
    { items :=
        if full ≠ [] then
          st.items ++ [{ type := lt.getD [], promo := full, qty := (pyIntOfDigits qt : ℤ) }]
        else st.items,
      last_type := lt, promo_buf := [] }
  else
    { items := st.items, last_type := lt,
      promo_buf := if pr ≠ [] ∧ ¬ urlish pr then st.promo_buf ++ [pr] else st.promo_buf }

/-- `extract_items_from_pages(doc, pages)`, over the row streams the
pages produce. -/
def extract_items_from_pages (pages : List (List Row)) : List Item :=
  ((pages.foldl (fun st rows => rows.foldl exStep st) {} : ExState)).items

-- ---------------------------------------------------------------------------
-- Orchestrator guard (`process_pdf_sorted_with_kits_and_envelopes`,
-- steps 1–2).  Output-side behaviour is abstracted to an effect trace;
-- `rest` stands for the remainder of the pipeline (envelope fit,
-- sorting, `fitz.open()`, page building and the final save), which the
-- source only reaches when the sign-type guard passes.

inductive Effect where
  | newPage : Effect
  | save : Effect
  | showError : Str → Effect
deriving DecidableEq

def MSG_NO_SIGNS : Str := ("No sign types found in this PDF.").toList

/-- The no-sign-types stop condition: split stores by item presence,
collect the unique sign types of the stores with items, and abort with
a user-facing message — before any output page or save — when that
list is empty. -/
def process_pdf_model (stores : List Store)
    (rest : List Store → List Store → List Effect) : List Effect :=
  let no_order_stores := stores.filter (fun s => s.items.isEmpty)
  let stores_with_items := stores.filter (fun s => !s.items.isEmpty)
  let sign_types := unique_sign_types stores_with_items
  if sign_types.isEmpty then [Effect.showError MSG_NO_SIGNS]
  else rest no_order_stores stores_with_items

-- ---------------------------------------------------------------------------
-- Store segmentation (`index_stores`) and its helpers
-- (`extract_store_info`, `clean_text_for_kits`, `classify_store`).

/-- `str.splitlines()` for the line endings the program's page text
uses (`\n`, `\r\n`, `\r`). -/
def splitlinesAux : Str → Str → List Str
  | cur, [] => if cur = [] then [] else [cur.reverse]
  | cur, '\r' :: '\n' :: cs => cur.reverse :: splitlinesAux [] cs
  | cur, '\r' :: cs => cur.reverse :: splitlinesAux [] cs
  | cur, '\n' :: cs => cur.reverse :: splitlinesAux [] cs
  | cur, c :: cs => splitlinesAux (c :: cur) cs

def pySplitlines (l : Str) : List Str := splitlinesAux [] l

/-- The suffix after the last occurrence of `sep` (`line.split(sep)[-1]`
for a separator that cannot overlap itself); the whole string when
`sep` does not occur. -/
def afterLastAux (sep : Str) : Str → Option Str
  | [] => none
  | c :: cs =>
    match afterLastAux sep cs with
    | some r => some r
    | none => if sep.isPrefixOf (c :: cs) then some ((c :: cs).drop sep.length) else none

def afterLast (sep l : Str) : Str := (afterLastAux sep l).getD l

def asciiUpper (c : Char) : Char :=
  if c = 'a' then 'A' else if c = 'b' then 'B' else if c = 'c' then 'C'
  else if c = 'd' then 'D' else if c = 'e' then 'E' else if c = 'f' then 'F'
  else if c = 'g' then 'G' else if c = 'h' then 'H' else if c = 'i' then 'I'
  else if c = 'j' then 'J' else if c = 'k' then 'K' else if c = 'l' then 'L'
  else if c = 'm' then 'M' else if c = 'n' then 'N' else if c = 'o' then 'O'
  else if c = 'p' then 'P' else if c = 'q' then 'Q' else if c = 'r' then 'R'
  else if c = 's' then 'S' else if c = 't' then 'T' else if c = 'u' then 'U'
  else if c = 'v' then 'V' else if c = 'w' then 'W' else if c = 'x' then 'X'
  else if c = 'y' then 'Y' else if c = 'z' then 'Z' else c

def isWordChar (c : Char) : Bool :=
  isUpperA c || ('a' ≤ c ∧ c ≤ 'z') || isDigitA c || c = '_'

/-- Alternatives of `\b(NY|PA|OH|New York|Pennsylvania|Ohio)\b`, in the
pattern's order. -/
def stateAlts : List Str :=
  [("NY").toList, ("PA").toList, ("OH").toList,
   ("New York").toList, ("Pennsylvania").toList, ("Ohio").toList]

def ciPrefix (pat l : Str) : Bool :=
  (pat.map asciiLower).isPrefixOf (l.map asciiLower)

/-- Try the alternation at one position: the preceding character (if
any) must not be a word character, the alternative must match
case-insensitively, and the following character (if any) must not be a
word character.  Returns the matched text. -/
def stateMatchAt (prev : Option Char) (l : Str) : Option Str :=
  if (match prev with | none => true | some p => !isWordChar p) then
    stateAlts.findSome? (fun a =>
      if ciPrefix a l &&
          (match (l.drop a.length).head? with
           | none => true
           | some c => !isWordChar c) then
        some (l.take a.length)
      else none)
  else none

/-- `re.search` over positions, leftmost match wins. -/
def stateSearch : Option Char → Str → Option Str
  | _, [] => none
  | prev, c :: cs =>
    match stateMatchAt prev (c :: cs) with
    | some m => some m
    | none => stateSearch (some c) cs

/-- `{'NEW YORK': 'NY', 'PENNSYLVANIA': 'PA', 'OHIO': 'OH'}.get(nm, nm)`. -/
def mapStateName (nm : Str) : Str :=
  if nm = ("NEW YORK").toList then ("NY").toList
  else if nm = ("PENNSYLVANIA").toList then ("PA").toList
  else if nm = ("OHIO").toList then ("OH").toList
  else nm

structure Meta where
  store : Option Str := none
  area : Option Str := none
  cls : Option Str := none
  location : Option Str := none
deriving DecidableEq, Inhabited

def sSignType : Str := ("Sign Type").toList
def sAreaColon : Str := ("Area:").toList
def sClassColon : Str := ("Class:").toList

/-- The line loop of `extract_store_info`: stop at the first line
containing "Sign Type", otherwise capture store/area/class values or a
state-name location (first match only). -/
def extractInfoLines (out : Meta) : List Str → Meta
  | [] => out
  | line :: rest =>
    if containsSub sSignType line then out
    else if containsSub sStoreColon line then
      extractInfoLines { out with store := some (pyStrip (afterLast sStoreColon line)) } rest
    else if containsSub sAreaColon line then
      extractInfoLines { out with area := some (pyStrip (afterLast sAreaColon line)) } rest
    else if containsSub sClassColon line then
      extractInfoLines { out with cls := some (pyStrip (afterLast sClassColon line)) } rest
    else
      match out.location, stateSearch none line with
      | none, some m =>
        extractInfoLines { out with location := some (mapStateName (m.map asciiUpper)) } rest
      | _, _ => extractInfoLines out rest

def extract_store_info (text : Str) : Meta :=
  extractInfoLines {} (pySplitlines text)

/-- Matcher for the whitespace-tolerant kit-marker patterns
(`\s*c₁\s*c₂...\s*cₙ`, case-insensitive): before every literal pattern
character any run of whitespace is consumed.  Returns the rest of the
input after the match. -/
def matchKitAux : Str → Str → Option Str
  | [], rest => some rest
  | p :: ps, rest =>
    match rest.dropWhile isPyWS with
    | [] => none
    | c :: cs => if asciiLower c = asciiLower p then matchKitAux ps cs else none

/-- `re.sub` with such a pattern: scan left to right, replace each
non-overlapping match, never rescan a replacement.  Fuel equals the
input length, which a nonempty pattern can never exhaust. -/
def subAllFuel (pat rep : Str) : ℕ → Str → Str
  | _, [] => []
  | 0, l => l
  | fuel + 1, c :: rest =>
    match matchKitAux pat (c :: rest) with
    | some rem => rep ++ subAllFuel pat rep fuel rem
    | none => c :: subAllFuel pat rep fuel rest

def subAll (pat rep l : Str) : Str := subAllFuel pat rep l.length l

/-- The literal characters of the four kit-marker regexes. -/
def PAT_COUNTER : Str := ("*CANDY;COUNTERKIT*").toList
def PAT_SHIPPER : Str := ("*CANDY;SHIPPERKIT*").toList
def PAT_ALC : Str := ("*ShelfWobblerKit;AlcoholVersion*").toList
def PAT_NONALC : Str := ("*ShelfWobblerKit;Non-AlcoholVersion*").toList

/-- `clean_text_for_kits`: collapse whitespace, then normalize the four
kit markers to their canonical spellings. -/
def clean_text_for_kits (text : Str) : Str :=
  let t := collapseWS text
  let t := subAll PAT_COUNTER KIT_COUNTER t
  let t := subAll PAT_SHIPPER KIT_SHIPPER t
  let t := subAll PAT_ALC KIT_ALC t
  subAll PAT_NONALC KIT_NONALC t

structure Classify where
  store_type : Str
  is_counter : Bool
  is_shipper : Bool
  is_alcohol : Bool
  is_non_alcohol : Bool
deriving DecidableEq

/-- `classify_store(accum_text)`. -/
def classify_store (accum : Str) : Classify :=
  let t := clean_text_for_kits accum
  let is_counter := containsSub KIT_COUNTER t
  let is_shipper := containsSub KIT_SHIPPER t
  let is_alcohol := containsSub KIT_ALC t
  let is_nonalcohol := containsSub KIT_NONALC t && !is_alcohol
  let alc : Str :=
    if is_alcohol then ("Alcohol").toList
    else if is_nonalcohol then ("Non-Alcohol").toList
    else []
  let store_type :=
    if is_counter && is_shipper then alc ++ (" Counter + Shipper").toList
    else if is_counter then alc ++ (" Counter").toList
    else if is_shipper then alc ++ (" Shipper").toList
    else alc ++ (" No Counter/Shipper").toList
  { store_type := pyStrip store_type, is_counter := is_counter,
    is_shipper := is_shipper, is_alcohol := is_alcohol,
    is_non_alcohol := is_nonalcohol }

structure StoreRec where
  store_id : Str
  store_name : Str
  store_type : Str
  location : Str
  cls : Str
  pages : List ℕ
  meta : Meta
deriving DecidableEq, Inhabited

structure IdxState where
  stores : List StoreRec := []
  current : Option (List ℕ) := none
  accum : Str := []
  meta : Meta := {}

def sUNKNOWN (i : ℕ) : Str := ("UNKNOWN_").toList ++ Nat.toDigits 10 i

/-- Finalize the currently open store (`stores.append({...})`). -/
def closeStoreRec (meta : Meta) (accum : Str) (pages : List ℕ)
    (fallbackName : Str) : StoreRec :=
  let c := classify_store accum
  let store_name := meta.store.getD fallbackName
  let store_cls := meta.cls.getD []
  { store_id := store_name ++ ['|'] ++ store_cls
    store_name := store_name
    store_type := c.store_type
    location := meta.location.getD []
    cls := store_cls
    pages := pages
    meta := meta }

/-- One page of the `index_stores` loop.  A page whose text extraction
raised (`none`) or whose text strips to empty is skipped entirely; a
header page closes any open store and opens a new one; any other page
extends the open store's pages and the accumulated text. -/
def indexStep (st : IdxState) (i : ℕ) (ptext : Option Str) : IdxState :=
  match ptext with
  | none => st
  | some text =>
    if pyStrip text = [] then st
    else if is_header_page text then
      let stores2 :=
        match st.current with
        | some pgs => st.stores ++ [closeStoreRec st.meta st.accum pgs (sUNKNOWN i)]
        | none => st.stores
      { stores := stores2, current := some [i], accum := text ++ [' '],
        meta := extract_store_info text }
    else
      { stores := st.stores,
        current := match st.current with | some pgs => some (pgs ++ [i]) | none => none,
        accum := st.accum ++ text ++ [' '],
        meta := st.meta }

def indexLoop : ℕ → List (Option Str) → IdxState → IdxState
  | _, [], st => st
  | i, p :: rest, st => indexLoop (i + 1) rest (indexStep st i p)

/-- `index_stores(doc)`: a document is its list of page texts (`none`
when `get_text` raises). -/
def index_stores (doc : List (Option Str)) : List StoreRec :=
  let st := indexLoop 0 doc {}
  match st.current with
  | none => st.stores
  | some pgs =>
    st.stores ++ [closeStoreRec st.meta st.accum pgs (("UNKNOWN_END").toList)]

-- ---------------------------------------------------------------------------
-- Claim-side predicates and characterizations.

/-- The frozen claim C3's reading of the header marker: "Store: " with
exactly one space, then one letter (either case) and four digits,
somewhere in the text. -/
def headerTailAnyCase : Str → Bool
  | c :: d1 :: d2 :: d3 :: d4 :: _ =>
    (isUpperA c || ('a' ≤ c ∧ c ≤ 'z')) &&
      isDigitA d1 && isDigitA d2 && isDigitA d3 && isDigitA d4
  | _ => false

def sStoreSpace : Str := ("Store: ").toList

def headerClaimB (t : Str) : Bool :=
  t.tails.any (fun l => sStoreSpace.isPrefixOf l && headerTailAnyCase (l.drop 7))

/-- What the header matcher actually accepts: `Store:` followed by an
optional single whitespace character, one uppercase letter and four
digits, as a substring. -/
def AmendedHeader (t : Str) : Prop :=
  ∃ pre mid c d1 d2 d3 d4 post,
    t = pre ++ sStoreColon ++ mid ++ c :: d1 :: d2 :: d3 :: d4 :: post ∧
    (mid = [] ∨ ∃ w, mid = [w] ∧ isPyWS w = true) ∧
    isUpperA c = true ∧ isDigitA d1 = true ∧ isDigitA d2 = true ∧
    isDigitA d3 = true ∧ isDigitA d4 = true

/-- A store's grouping signature when it qualifies (at least two
non-predetermined wobbler pairs). -/
def qualSig (s : Store) : Option Sig :=
  let w := storeWobPairs s.items
  if w.length ≤ 1 then none else some (sortPairs w)

/-- The signatures of the qualifying stores, first occurrence only, in
store-list order. -/
def encounterKeys (stores : List Store) : List Sig :=
  stores.foldl (fun ks s =>
    match qualSig s with
    | none => ks
    | some k => if k ∈ ks then ks else ks ++ [k]) []

/-- Loop invariant of `index_stores`: every recorded page list and the
open store's page list are strictly increasing, and the open store's
pages all precede the next page index. -/
def idxInv (n : ℕ) (st : IdxState) : Prop :=
  (∀ r ∈ st.stores, List.Chain' (· < ·) r.pages) ∧
  (∀ l, st.current = some l → List.Chain' (· < ·) l ∧ ∀ x ∈ l, x < n)

def lowerChars : List Char :=
  [ 'a', 'b', 'c', 'd', 'e', 'f', 'g', 'h', 'i', 'j', 'k', 'l', 'm',
    'n', 'o', 'p', 'q', 'r', 's', 't', 'u', 'v', 'w', 'x', 'y', 'z']

/-- Star-free strings: canon's asterisk trim is inert on them. -/
def StarFree (l : Str) : Prop := ∀ c ∈ l, c ≠ '*'

/-- No whitespace at the front. -/
def HeadOk (l : Str) : Prop := ∀ c, l.head? = some c → isPyWS c = false

/-- No whitespace at the back. -/
def LastOk (l : Str) : Prop := ∀ c, l.getLast? = some c → isPyWS c = false

-- ---------------------------------------------------------------------------
-- Concrete inputs used by the claims.

def mkWobStore (sid : Str) (ps : List (Str × ℤ)) : Store :=
  { store_id := sid, store_name := sid,
    items := ps.map (fun pq =>
      { type := ("Shelf Wobbler").toList, promo := pq.1, qty := pq.2 }) }

def exPromoA : Str := ("Promo A").toList
def exPromoB : Str := ("Promo B").toList

def exIds9 : List Str :=
  [("S1").toList, ("S2").toList, ("S3").toList, ("S4").toList, ("S5").toList,
   ("S6").toList, ("S7").toList, ("S8").toList, ("S9").toList]

def exC1stores9 : List Store :=
  exIds9.map (fun i => mkWobStore i [(exPromoA, 2), (exPromoB, 3)])

def exC1stores10 : List Store :=
  (exIds9 ++ [("T0").toList]).map (fun i => mkWobStore i [(exPromoA, 2), (exPromoB, 3)])

def exC1sA : Store := mkWobStore (("A").toList) [(exPromoA, 2), (exPromoB, 3)]
def exC1sB : Store := mkWobStore (("B").toList) [(exPromoB, 3), (exPromoA, 2)]
def exC1pair : List Store := [exC1sA, exC1sB]

def exC6stores : List Store :=
  ([("X1").toList, ("X2").toList].map
    (fun i => mkWobStore i [(("P1").toList, 1), (("P2").toList, 1)])) ++
  ([("Y1").toList, ("Y2").toList, ("Y3").toList].map
    (fun i => mkWobStore i [(("Q1").toList, 1), (("Q2").toList, 1)]))

def exC2store : Store :=
  { store_id := ("S").toList, store_name := ("S").toList,
    items := [{ type := ("A").toList, promo := ("p").toList, qty := 1 },
              { type := ("B").toList, promo := ("q").toList, qty := 2 }] }

def exC2willABC : List Str := [("A").toList, ("B").toList, ("C").toList]
def exC2willA : List Str := [("A").toList]

def exC3 : Str := ("Store:A1234").toList

def exC5 : Str := ("* a *").toList
def exC5w : Str := ("  Hello   World  ").toList

def exC7doc : List (Option Str) := [some (("Store: A1234").toList)]

def exC7doc3 : List (Option Str) :=
  [some (("Store: A1234").toList), some (("   ").toList),
   some (("follow page").toList)]

def exC8row : Row :=
  { type_text := ("Shelf Wobbler").toList, promo_text := ("Some Promo").toList,
    qty_text := ("0").toList }

def exC8pages : List (List Row) := [[exC8row]]

def exC8item : Item :=
  { type := ("Shelf Wobbler").toList, promo := ("Some Promo").toList, qty := 0 }

-- ===========================================================================
-- Lemmas.

theorem getLast?_mem' {α : Type} : ∀ (l : List α) (a : α), l.getLast? = some a → a ∈ l
  | [a0], a, h => by
    simp only [List.getLast?_singleton, Option.some.injEq] at h
    simp [h]
  | a0 :: a1 :: t, a, h => by
    rw [List.getLast?_cons_cons] at h
    exact List.mem_cons_of_mem a0 (getLast?_mem' (a1 :: t) a h)

theorem rectTruthy_of_y1 (r : PRect) (h : r.y1 ≠ 0) : rectTruthy r = true := by
  simp only [rectTruthy, decide_eq_true_eq]
  exact fun hc => h hc.2.2.2

-- Claim C4 support: nothing else needed.

-- Claim C2 / C10 support.

theorem mem_fits_iff (stores : List Store) (cfg : List Str) (s : Store)
    (hs : s ∈ stores) :
    FStore.mk s true ∈ (compute_envelope_fit stores cfg).1 ↔ envFlag cfg s = true := by
  simp only [compute_envelope_fit, List.mem_filter, List.mem_map]
  constructor
  · rintro ⟨⟨s2, _, heq⟩, _⟩
    rw [FStore.mk.injEq] at heq
    obtain ⟨rfl, h2⟩ := heq
    exact h2
  · intro h
    exact ⟨⟨s, hs, by rw [h]⟩, by simp⟩

-- Claim C8 support.

theorem exStep_items_sub (st : ExState) (row : Row) :
    ∀ it ∈ (exStep st row).items, it ∈ st.items ∨ 0 ≤ it.qty := by
  intro it hit
  simp only [exStep] at hit
  repeat' split at hit
  all_goals first
    | exact Or.inl hit
    | (simp only [List.mem_append, List.mem_singleton] at hit
       rcases hit with h1 | h2
       · exact Or.inl h1
       · subst h2
         exact Or.inr (Int.natCast_nonneg _))

theorem extract_fold_rows : ∀ (rows : List Row) (st : ExState),
    (∀ it ∈ st.items, 0 ≤ it.qty) →
    ∀ it ∈ (rows.foldl exStep st).items, 0 ≤ it.qty := by
  intro rows
  induction rows with
  | nil => intro st h; exact h
  | cons r rs ih =>
    intro st h
    apply ih
    intro it hit
    rcases exStep_items_sub st r it hit with h1 | h2
    · exact h it h1
    · exact h2

theorem extract_fold_pages : ∀ (pages : List (List Row)) (st : ExState),
    (∀ it ∈ st.items, 0 ≤ it.qty) →
    ∀ it ∈ (pages.foldl (fun st2 rows => rows.foldl exStep st2) st).items, 0 ≤ it.qty := by
  intro pages
  induction pages with
  | nil => intro st h; exact h
  | cons rows rest ih =>
    intro st h
    exact ih _ (extract_fold_rows rows st h)

-- ===========================================================================
-- Claim theorems.

/-- Claim C4, counterexample: on a page (width 612) where none of the
three anchors is found, the fractional fallbacks for the two column
boundaries do hold, but `header_bottom` is 20 (the fallback rectangles'
bottom edge), not 0 as the claim states. -/
theorem c4_detect_columns_counterexample :
    (detect_columns 612 [] [] []).x_promo_left = 612 * (25/100) ∧
    (detect_columns 612 [] [] []).x_qty_left = 612 * (80/100) ∧
    (detect_columns 612 [] [] []).header_bottom ≠ 0 ∧
    (detect_columns 612 [] [] []).header_bottom = 20 := by
  have hp : rectTruthy ⟨(612 : ℚ) * (25/100), 0, 612 * (55/100), 20⟩ = true :=
    rectTruthy_of_y1 _ (by norm_num)
  have hq : rectTruthy ⟨(612 : ℚ) * (80/100), 0, 612 * (95/100), 20⟩ = true :=
    rectTruthy_of_y1 _ (by norm_num)
  refine ⟨?_, ?_, ?_, ?_⟩ <;> simp [detect_columns, hp, hq, pymaxD]

/-- Claim C4 (amended): when none of the three anchor strings is found,
`detect_columns` returns `x_promo_left` = 25% and `x_qty_left` = 80% of
the page width, and `header_bottom` = 20, the bottom edge of the
fallback rectangles (not 0: the fallback promo/qty rectangles are truthy
and their `y1` participates in the maximum). -/
theorem c4_detect_columns_fallback (w : ℚ) :
    detect_columns w [] [] [] =
      { x_promo_left := w * (25/100), x_qty_left := w * (80/100),
        header_bottom := 20 } := by
  have hp : rectTruthy ⟨w * (25/100), 0, w * (55/100), 20⟩ = true :=
    rectTruthy_of_y1 _ (by norm_num)
  have hq : rectTruthy ⟨w * (80/100), 0, w * (95/100), 20⟩ = true :=
    rectTruthy_of_y1 _ (by norm_num)
  simp [detect_columns, hp, hq, pymaxD]

/-- Claim C10: a store with an empty item list is always classified
`fits_envelope = False` by `compute_envelope_fit`: it appears (with a
`false` flag) in the not-fits component and never in the fits
component, for every configuration. -/
theorem c10_empty_items_fits_false (stores : List Store) (cfg : List Str)
    (s : Store) (hs : s ∈ stores) (he : s.items = []) :
    FStore.mk s false ∈ (compute_envelope_fit stores cfg).2 ∧
    ∀ b, FStore.mk s b ∉ (compute_envelope_fit stores cfg).1 := by
  have hf : envFlag cfg s = false := by simp [envFlag, he]
  constructor
  · simp only [compute_envelope_fit, List.mem_filter, List.mem_map]
    exact ⟨⟨s, hs, by rw [hf]⟩, by simp⟩
  · intro b hb
    simp only [compute_envelope_fit, List.mem_filter, List.mem_map] at hb
    obtain ⟨⟨s2, _, heq⟩, hflag⟩ := hb
    rw [FStore.mk.injEq] at heq
    obtain ⟨rfl, hb2⟩ := heq
    rw [hf] at hb2
    rw [← hb2] at hflag
    simp at hflag

/-- Witness for C10 at a concrete store with no items. -/
theorem c10_empty_items_fits_false_witness :
    FStore.mk ({} : Store) false ∈ (compute_envelope_fit [{}] []).2 ∧
    ∀ b, FStore.mk ({} : Store) b ∉ (compute_envelope_fit [{}] []).1 :=
  c10_empty_items_fits_false [{}] [] {} (by simp) rfl

/-- Claim C2: for a store with a nonempty item list,
`compute_envelope_fit` marks it as fitting iff every item's canonical
sign type is in the canonicalized will-fit set; and the concrete
store with sign types A, B fits under will-fit {A, B, C} but not under
will-fit {A}. -/
theorem c2_envelope_fit (stores : List Store) (cfg : List Str) (s : Store)
    (hs : s ∈ stores) (hne : s.items ≠ []) :
    (FStore.mk s true ∈ (compute_envelope_fit stores cfg).1 ↔
      ∀ it ∈ s.items, canon it.type ∈ cfg.map canon) ∧
    (compute_envelope_fit [exC2store] exC2willABC).1 = [FStore.mk exC2store true] ∧
    (compute_envelope_fit [exC2store] exC2willABC).2 = [] ∧
    (compute_envelope_fit [exC2store] exC2willA).1 = [] ∧
    (compute_envelope_fit [exC2store] exC2willA).2 = [FStore.mk exC2store false] := by
  refine ⟨?_, by decide, by decide, by decide, by decide⟩
  rw [mem_fits_iff stores cfg s hs]
  have h0 : ¬ (s.items.isEmpty = true) := by simp [List.isEmpty_iff, hne]
  rw [envFlag, if_neg h0]
  simp only [List.all_eq_true, List.contains, List.elem_eq_mem, decide_eq_true_eq]

/-- Witness for C2 at the concrete example store. -/
theorem c2_envelope_fit_witness :
    ((FStore.mk exC2store true ∈ (compute_envelope_fit [exC2store] exC2willABC).1 ↔
      ∀ it ∈ exC2store.items, canon it.type ∈ exC2willABC.map canon) ∧
    (compute_envelope_fit [exC2store] exC2willABC).1 = [FStore.mk exC2store true] ∧
    (compute_envelope_fit [exC2store] exC2willABC).2 = [] ∧
    (compute_envelope_fit [exC2store] exC2willA).1 = [] ∧
    (compute_envelope_fit [exC2store] exC2willA).2 = [FStore.mk exC2store false]) :=
  c2_envelope_fit [exC2store] exC2willABC exC2store (by simp) (by decide)

/-- Claim C9: when the unique-sign-type list over the stores with items
is empty, processing stops with the user-facing message and neither
builds an output page nor attempts a save. -/
theorem c9_no_sign_types_aborts (stores : List Store)
    (rest : List Store → List Store → List Effect)
    (h : unique_sign_types (stores.filter (fun s => !s.items.isEmpty)) = []) :
    process_pdf_model stores rest = [Effect.showError MSG_NO_SIGNS] ∧
    Effect.newPage ∉ process_pdf_model stores rest ∧
    Effect.save ∉ process_pdf_model stores rest := by
  have hmain : process_pdf_model stores rest = [Effect.showError MSG_NO_SIGNS] := by
    simp [process_pdf_model, h]
  refine ⟨hmain, ?_, ?_⟩ <;> rw [hmain] <;> simp

/-- Witness for C9 at the empty store list. -/
theorem c9_no_sign_types_aborts_witness :
    process_pdf_model [] (fun _ _ => []) = [Effect.showError MSG_NO_SIGNS] ∧
    Effect.newPage ∉ process_pdf_model [] (fun _ _ => []) ∧
    Effect.save ∉ process_pdf_model [] (fun _ _ => []) :=
  c9_no_sign_types_aborts [] (fun _ _ => []) rfl

/-- Claim C8, counterexample: a row whose qty cell is the literal "0"
(with a sign type in scope and a nonempty promo) makes the extractor
emit an item with `qty = 0`, so emitted quantities are not always
positive. -/
theorem c8_qty_counterexample :
    extract_items_from_pages exC8pages = [exC8item] ∧ ¬ (0 < exC8item.qty) := by
  decide

/-- Claim C8 (amended): every item the extractor emits has a
non-negative quantity (the qty cell must be a digit literal), but zero
is possible: the concrete row stream with qty text "0" emits exactly
one item with `qty = 0`. -/
theorem c8_qty_nonneg :
    (∀ (pages : List (List Row)) (it : Item),
      it ∈ extract_items_from_pages pages → 0 ≤ it.qty) ∧
    extract_items_from_pages exC8pages = [exC8item] := by
  constructor
  · intro pages it hit
    exact extract_fold_pages pages {} (by intro it2 h2; cases h2) it hit
  · decide

/-- Witness for (the universally quantified part of) C8's amended
theorem at the concrete item. -/
theorem c8_qty_nonneg_witness :
    (exC8item ∈ extract_items_from_pages exC8pages) ∧ (0 : ℤ) ≤ exC8item.qty :=
  ⟨by decide, c8_qty_nonneg.1 exC8pages exC8item (by decide)⟩

-- ===========================================================================
-- Canon idempotence machinery (claim C5).

theorem collapseAux_nil (b : Bool) : collapseAux b [] = [] := rfl

theorem collapseAux_cons_ws_true (a : Char) (as : Str) (ha : isPyWS a = true) :
    collapseAux true (a :: as) = collapseAux true as := by
  simp [collapseAux, ha]

theorem collapseAux_cons_ws_false (a : Char) (as : Str) (ha : isPyWS a = true) :
    collapseAux false (a :: as) = ' ' :: collapseAux true as := by
  simp [collapseAux, ha]

theorem collapseAux_cons_nws (b : Bool) (a : Char) (as : Str) (ha : isPyWS a = false) :
    collapseAux b (a :: as) = a :: collapseAux false as := by
  simp [collapseAux, ha]

theorem dropWhile_head_false {α : Type} (p : α → Bool) :
    ∀ (l : List α) (c : α) (t : List α), l.dropWhile p = c :: t → p c = false := by
  intro l
  induction l with
  | nil => intro c t h; simp [List.dropWhile] at h
  | cons a as ih =>
    intro c t h
    by_cases hp : p a = true
    · rw [List.dropWhile_cons_of_pos hp] at h
      exact ih c t h
    · rw [List.dropWhile_cons_of_neg hp] at h
      cases h
      simpa using hp

theorem headOk_dropWhile (l : Str) : HeadOk (l.dropWhile isPyWS) := by
  intro c hc
  cases h : l.dropWhile isPyWS with
  | nil => rw [h] at hc; cases hc
  | cons a t =>
    rw [h] at hc
    simp only [List.head?_cons, Option.some.injEq] at hc
    subst hc
    exact dropWhile_head_false isPyWS l a t h

theorem dropWhile_eq_self_of_head (l : Str) (h : ∀ c, l.head? = some c → isPyWS c = false) :
    l.dropWhile isPyWS = l := by
  cases l with
  | nil => rfl
  | cons a t =>
    have ha := h a rfl
    rw [List.dropWhile_cons_of_neg (by simp [ha])]

theorem suffix_reverse_prefix {x z : Str} (h : x <:+ z) : x.reverse <+: z.reverse := by
  rw [← List.reverse_suffix] at *
  · rwa [List.reverse_reverse, List.reverse_reverse]

theorem prefix_headOk {x y : Str} (hy : HeadOk y) (hp : x <+: y) : HeadOk x := by
  intro c hc
  obtain ⟨t, ht⟩ := hp
  cases x with
  | nil => cases hc
  | cons a t2 =>
    simp only [List.head?_cons, Option.some.injEq] at hc
    subst hc
    apply hy
    rw [← ht]
    rfl

theorem pyStrip_prefix_drop (l : Str) : pyStrip l <+: l.dropWhile isPyWS := by
  unfold pyStrip
  have h1 : (l.dropWhile isPyWS).reverse.dropWhile isPyWS <:+ (l.dropWhile isPyWS).reverse :=
    List.dropWhile_suffix isPyWS
  have h2 := suffix_reverse_prefix h1
  rwa [List.reverse_reverse] at h2

theorem pyStrip_headOk (l : Str) : HeadOk (pyStrip l) :=
  prefix_headOk (headOk_dropWhile l) (pyStrip_prefix_drop l)

theorem pyStrip_lastOk (l : Str) : LastOk (pyStrip l) := by
  intro c hc
  unfold pyStrip at hc
  rw [List.getLast?_reverse] at hc
  exact headOk_dropWhile _ c hc

theorem pyStrip_eq_self (l : Str) (h1 : HeadOk l) (h2 : LastOk l) : pyStrip l = l := by
  unfold pyStrip
  rw [dropWhile_eq_self_of_head l h1]
  rw [dropWhile_eq_self_of_head l.reverse
    (fun c hc => h2 c (by rwa [List.head?_reverse] at hc))]
  exact List.reverse_reverse l

theorem mem_collapseAux :
    ∀ (l : Str) (b : Bool) (c : Char), c ∈ collapseAux b l → c = ' ' ∨ c ∈ l := by
  intro l
  induction l with
  | nil => intro b c h; simp [collapseAux] at h
  | cons a as ih =>
    intro b c h
    by_cases ha : isPyWS a = true
    · cases b
      · rw [collapseAux_cons_ws_false a as ha] at h
        rcases List.mem_cons.mp h with h1 | h1
        · exact Or.inl h1
        · rcases ih true c h1 with h2 | h2
          · exact Or.inl h2
          · exact Or.inr (List.mem_cons_of_mem a h2)
      · rw [collapseAux_cons_ws_true a as ha] at h
        rcases ih true c h with h2 | h2
        · exact Or.inl h2
        · exact Or.inr (List.mem_cons_of_mem a h2)
    · have ha2 : isPyWS a = false := by simpa using ha
      rw [collapseAux_cons_nws b a as ha2] at h
      rcases List.mem_cons.mp h with h1 | h1
      · exact Or.inr (h1 ▸ List.mem_cons_self a as)
      · rcases ih false c h1 with h2 | h2
        · exact Or.inl h2
        · exact Or.inr (List.mem_cons_of_mem a h2)

theorem collapseAux_idem : ∀ (l : Str) (b : Bool),
    collapseAux b (collapseAux b l) = collapseAux b l := by
  intro l
  induction l with
  | nil => intro b; rfl
  | cons a as ih =>
    intro b
    by_cases ha : isPyWS a = true
    · cases b
      · rw [collapseAux_cons_ws_false a as ha,
          collapseAux_cons_ws_false ' ' _ (by decide), ih true]
      · rw [collapseAux_cons_ws_true a as ha, ih true]
    · have ha2 : isPyWS a = false := by simpa using ha
      rw [collapseAux_cons_nws b a as ha2,
        collapseAux_cons_nws b a _ ha2, ih false]

theorem collapseAux_ne_nil :
    ∀ (l : Str) (b : Bool), (∃ c ∈ l, isPyWS c = false) → collapseAux b l ≠ [] := by
  intro l
  induction l with
  | nil => intro b h; obtain ⟨c, hc, _⟩ := h; cases hc
  | cons a as ih =>
    intro b h
    by_cases ha : isPyWS a = true
    · have h2 : ∃ c ∈ as, isPyWS c = false := by
        obtain ⟨c, hc, hcf⟩ := h
        rcases List.mem_cons.mp hc with h3 | h3
        · rw [h3] at hcf; rw [hcf] at ha; cases ha
        · exact ⟨c, h3, hcf⟩
      cases b
      · rw [collapseAux_cons_ws_false a as ha]
        exact List.cons_ne_nil _ _
      · rw [collapseAux_cons_ws_true a as ha]
        exact ih true h2
    · have ha2 : isPyWS a = false := by simpa using ha
      rw [collapseAux_cons_nws b a as ha2]
      exact List.cons_ne_nil _ _

theorem headOk_collapseWS (l : Str) (h : HeadOk l) : HeadOk (collapseWS l) := by
  intro c hc
  cases l with
  | nil => cases hc
  | cons a as =>
    have ha := h a rfl
    unfold collapseWS at hc
    rw [collapseAux_cons_nws false a as ha] at hc
    simp only [List.head?_cons, Option.some.injEq] at hc
    subst hc
    exact ha

theorem lastOk_collapseAux :
    ∀ (l : Str) (b : Bool), LastOk l → LastOk (collapseAux b l) := by
  intro l
  induction l with
  | nil => intro b _ c hc; cases hc
  | cons a as ih =>
    intro b hl
    cases as with
    | nil =>
      have ha : isPyWS a = false := hl a (by simp)
      rw [collapseAux_cons_nws b a [] ha, collapseAux_nil]
      intro c hc
      simp only [List.getLast?_singleton, Option.some.injEq] at hc
      subst hc
      exact ha
    | cons a2 as2 =>
      have hl2 : LastOk (a2 :: as2) := by
        intro c hc
        exact hl c (by rw [List.getLast?_cons_cons]; exact hc)
      by_cases ha : isPyWS a = true
      · cases b
        · rw [collapseAux_cons_ws_false a _ ha]
          intro c hc
          rcases hXe : collapseAux true (a2 :: as2) with _ | ⟨y, ys⟩
          · exfalso
            apply collapseAux_ne_nil (a2 :: as2) true _ hXe
            have hne : (a2 :: as2) ≠ [] := List.cons_ne_nil _ _
            obtain ⟨x, hx⟩ := Option.isSome_iff_exists.mp (List.getLast?_isSome.mpr hne)
            exact ⟨x, getLast?_mem' _ x hx, hl2 x hx⟩
          · rw [hXe, List.getLast?_cons_cons] at hc
            exact ih true hl2 c (by rw [hXe]; exact hc)
        · rw [collapseAux_cons_ws_true a _ ha]
          exact ih true hl2
      · have ha2 : isPyWS a = false := by simpa using ha
        rw [collapseAux_cons_nws b a _ ha2]
        intro c hc
        rcases hXe : collapseAux false (a2 :: as2) with _ | ⟨y, ys⟩
        · rw [hXe] at hc
          simp only [List.getLast?_singleton, Option.some.injEq] at hc
          subst hc
          exact ha2
        · rw [hXe, List.getLast?_cons_cons] at hc
          exact ih false hl2 c (by rw [hXe]; exact hc)

theorem collapseAux_map (f : Char → Char) (hf : ∀ c, isPyWS (f c) = isPyWS c)
    (hsp : f ' ' = ' ') :
    ∀ (l : Str) (b : Bool), collapseAux b (l.map f) = (collapseAux b l).map f := by
  intro l
  induction l with
  | nil => intro b; rfl
  | cons a as ih =>
    intro b
    by_cases ha : isPyWS a = true
    · have hfa : isPyWS (f a) = true := by rw [hf]; exact ha
      cases b
      · rw [List.map_cons, collapseAux_cons_ws_false _ _ hfa,
          collapseAux_cons_ws_false _ _ ha, List.map_cons, hsp, ih true]
      · rw [List.map_cons, collapseAux_cons_ws_true _ _ hfa,
          collapseAux_cons_ws_true _ _ ha, ih true]
    · have ha2 : isPyWS a = false := by simpa using ha
      have hfa : isPyWS (f a) = false := by rw [hf]; exact ha2
      rw [List.map_cons, collapseAux_cons_nws b _ _ hfa,
        collapseAux_cons_nws b _ _ ha2, List.map_cons, ih false]

theorem dropWhile_eq_self_of_all {p : Char → Bool} (l : Str)
    (h : ∀ c ∈ l, p c = false) : l.dropWhile p = l := by
  cases l with
  | nil => rfl
  | cons a t =>
    rw [List.dropWhile_cons_of_neg (by simp [h a (List.mem_cons_self a t)])]

theorem starTrim_of_starFree (l : Str) (h : StarFree l) : starTrim l = l := by
  have h1 : ∀ c ∈ l, isStar c = false := by
    intro c hc
    simp only [isStar, decide_eq_false_iff_not]
    exact h c hc
  unfold starTrim
  rw [dropWhile_eq_self_of_all l h1]
  rw [dropWhile_eq_self_of_all l.reverse (fun c hc => h1 c (List.mem_reverse.mp hc))]
  exact List.reverse_reverse l

theorem starFree_pyStrip (l : Str) (h : StarFree l) : StarFree (pyStrip l) := by
  intro c hc
  unfold pyStrip at hc
  rw [List.mem_reverse] at hc
  have hc2 : c ∈ (l.dropWhile isPyWS).reverse := (List.dropWhile_sublist _).mem hc
  rw [List.mem_reverse] at hc2
  exact h c ((List.dropWhile_sublist _).mem hc2)

theorem starFree_collapse (l : Str) (b : Bool) (h : StarFree l) :
    StarFree (collapseAux b l) := by
  intro c hc
  rcases mem_collapseAux l b c hc with h1 | h1
  · rw [h1]; decide
  · exact h c h1

theorem mem_lowerChars_fix : ∀ c ∈ lowerChars, asciiLower c = c := by decide

theorem mem_lowerChars_notStar : ∀ c ∈ lowerChars, c ≠ '*' := by decide

theorem asciiLower_cases (c : Char) : asciiLower c ∈ lowerChars ∨ asciiLower c = c := by
  unfold asciiLower
  cases hf : upperLowerTable.find? (fun p => p.1 = c) with
  | none => right; rfl
  | some p =>
    left
    have hp := List.mem_of_find?_eq_some hf
    simp only [Option.map_some', Option.getD_some]
    have hall : ∀ q ∈ upperLowerTable, q.2 ∈ lowerChars := by decide
    exact hall p hp

theorem asciiLower_idem (c : Char) : asciiLower (asciiLower c) = asciiLower c := by
  rcases asciiLower_cases c with h | h
  · exact mem_lowerChars_fix _ h
  · rw [h]; exact h

theorem asciiLower_ws (c : Char) : isPyWS (asciiLower c) = isPyWS c := by
  unfold asciiLower
  cases hf : upperLowerTable.find? (fun p => p.1 = c) with
  | none => rfl
  | some p =>
    have hp := List.mem_of_find?_eq_some hf
    have hc := List.find?_some hf
    simp only [decide_eq_true_eq] at hc
    simp only [Option.map_some', Option.getD_some]
    have hall : ∀ q ∈ upperLowerTable, isPyWS q.2 = false ∧ isPyWS q.1 = false := by
      decide
    rw [(hall p hp).1, ← hc, (hall p hp).2]

theorem starFree_mapLower (l : Str) (h : StarFree l) : StarFree (l.map asciiLower) := by
  intro c hc
  rw [List.mem_map] at hc
  obtain ⟨x, hx, hxc⟩ := hc
  rcases asciiLower_cases x with h1 | h1
  · rw [← hxc]; exact mem_lowerChars_notStar _ h1
  · rw [← hxc, h1]; exact h x hx

theorem headOk_mapLower (l : Str) (h : HeadOk l) : HeadOk (l.map asciiLower) := by
  intro c hc
  rw [List.head?_map] at hc
  cases hl : l.head? with
  | none => rw [hl] at hc; cases hc
  | some a =>
    rw [hl] at hc
    simp only [Option.map_some', Option.some.injEq] at hc
    rw [← hc, asciiLower_ws]
    exact h a hl

theorem lastOk_mapLower (l : Str) (h : LastOk l) : LastOk (l.map asciiLower) := by
  intro c hc
  rw [List.getLast?_map] at hc
  cases hl : l.getLast? with
  | none => rw [hl] at hc; cases hc
  | some a =>
    rw [hl] at hc
    simp only [Option.map_some', Option.some.injEq] at hc
    rw [← hc, asciiLower_ws]
    exact h a hl

theorem canon_starFree_eq (s : Str) (h : StarFree s) :
    canon s = (collapseWS (pyStrip s)).map asciiLower := by
  by_cases hs : s = []
  · subst hs
    rfl
  · rw [canon, if_neg hs,
      starTrim_of_starFree (collapseWS (pyStrip s))
        (starFree_collapse (pyStrip s) false (starFree_pyStrip s h))]

theorem canon_fix (t : Str) (hsf : StarFree t) (hh : HeadOk t) (hl : LastOk t)
    (hc : collapseWS t = t) (hm : t.map asciiLower = t) : canon t = t := by
  by_cases ht : t = []
  · subst ht; rfl
  · rw [canon, if_neg ht, pyStrip_eq_self t hh hl, hc,
      starTrim_of_starFree t hsf, hm]

/-- Claim C5, counterexample: `canon` is not idempotent.  On the
input `"* a *"` the asterisk trim (which runs after whitespace
collapsing) exposes surrounding spaces, so `canon "* a *" = " a "`
while `canon " a " = "a"`. -/
theorem c5_canon_counterexample : canon (canon exC5) ≠ canon exC5 := by decide

/-- Claim C5 (amended): `canon` is idempotent on every input that
contains no asterisk; in general it is not (trimming surrounding
asterisks can expose whitespace or further asterisks, as the
counterexample shows). -/
theorem c5_canon_idempotent (s : Str) (h : ∀ c ∈ s, c ≠ '*') :
    canon (canon s) = canon s := by
  have hsf : StarFree s := h
  have hmain := canon_starFree_eq s hsf
  have hsf_strip : StarFree (pyStrip s) := starFree_pyStrip s hsf
  have hsf_m : StarFree (collapseWS (pyStrip s)) := starFree_collapse _ false hsf_strip
  have hh_m : HeadOk (collapseWS (pyStrip s)) := headOk_collapseWS _ (pyStrip_headOk s)
  have hl_m : LastOk (collapseWS (pyStrip s)) := lastOk_collapseAux _ false (pyStrip_lastOk s)
  have hcol_m : collapseWS (collapseWS (pyStrip s)) = collapseWS (pyStrip s) :=
    collapseAux_idem (pyStrip s) false
  have hsf_t : StarFree ((collapseWS (pyStrip s)).map asciiLower) :=
    starFree_mapLower _ hsf_m
  have hh_t : HeadOk ((collapseWS (pyStrip s)).map asciiLower) :=
    headOk_mapLower _ hh_m
  have hl_t : LastOk ((collapseWS (pyStrip s)).map asciiLower) :=
    lastOk_mapLower _ hl_m
  have hcol_t : collapseWS ((collapseWS (pyStrip s)).map asciiLower) =
      (collapseWS (pyStrip s)).map asciiLower := by
    have h1 : collapseWS ((collapseWS (pyStrip s)).map asciiLower)
        = (collapseAux false (collapseWS (pyStrip s))).map asciiLower :=
      collapseAux_map asciiLower asciiLower_ws (by decide) (collapseWS (pyStrip s)) false
    rw [h1]
    have h2 : collapseAux false (collapseWS (pyStrip s)) = collapseWS (pyStrip s) := hcol_m
    rw [h2]
  have hmap_t : ((collapseWS (pyStrip s)).map asciiLower).map asciiLower =
      (collapseWS (pyStrip s)).map asciiLower := by
    rw [List.map_map]
    have hfl : asciiLower ∘ asciiLower = asciiLower := funext asciiLower_idem
    rw [hfl]
  rw [hmain]
  exact canon_fix _ hsf_t hh_t hl_t hcol_t hmap_t

/-- Witness for C5's amended theorem at an asterisk-free input with
messy whitespace and case. -/
theorem c5_canon_idempotent_witness :
    (∀ c ∈ exC5w, c ≠ '*') ∧ canon (canon exC5w) = canon exC5w :=
  ⟨by decide, c5_canon_idempotent exC5w (by decide)⟩

-- ===========================================================================
-- Header-pattern lemmas (claim C3).

theorem isPrefixOf_ex : ∀ (a l : Str), a.isPrefixOf l = true ↔ ∃ r, a ++ r = l := by
  intro a
  induction a with
  | nil =>
    intro l
    constructor
    · intro _; exact ⟨l, rfl⟩
    · intro _; cases l <;> rfl
  | cons x xs ih =>
    intro l
    cases l with
    | nil =>
      constructor
      · intro h; cases h
      · rintro ⟨r, hr⟩; cases hr
    | cons y ys =>
      simp only [List.isPrefixOf, Bool.and_eq_true, beq_iff_eq]
      rw [ih ys]
      constructor
      · rintro ⟨rfl, r, rfl⟩
        exact ⟨r, rfl⟩
      · rintro ⟨r, hr⟩
        injection hr with h1 h2
        exact ⟨h1, r, h2⟩

theorem headerTail_ex (r : Str) : headerTail r = true ↔
    ∃ c d1 d2 d3 d4 post, r = c :: d1 :: d2 :: d3 :: d4 :: post ∧
      isUpperA c = true ∧ isDigitA d1 = true ∧ isDigitA d2 = true ∧
      isDigitA d3 = true ∧ isDigitA d4 = true := by
  rcases r with _ | ⟨c, _ | ⟨d1, _ | ⟨d2, _ | ⟨d3, _ | ⟨d4, post⟩⟩⟩⟩⟩ <;>
    simp only [headerTail, Bool.and_eq_true]
  · constructor
    · intro h; cases h
    · rintro ⟨c, d1, d2, d3, d4, post, h, _⟩; cases h
  · constructor
    · intro h; cases h
    · rintro ⟨c2, d12, d22, d32, d42, post2, h, _⟩; cases h
  · constructor
    · intro h; cases h
    · rintro ⟨c2, d12, d22, d32, d42, post2, h, _⟩; cases h
  · constructor
    · intro h; cases h
    · rintro ⟨c2, d12, d22, d32, d42, post2, h, _⟩; cases h
  · constructor
    · intro h; cases h
    · rintro ⟨c2, d12, d22, d32, d42, post2, h, _⟩; cases h
  · constructor
    · intro h
      exact ⟨c, d1, d2, d3, d4, post, rfl, h.1.1.1.1, h.1.1.1.2, h.1.1.2, h.1.2, h.2⟩
    · rintro ⟨c2, d12, d22, d32, d42, post2, he, h1, h2, h3, h4, h5⟩
      cases he
      exact ⟨⟨⟨⟨h1, h2⟩, h3⟩, h4⟩, h5⟩

/-- Claim C3, counterexample: the text `"Store:A1234"` (no space after
the colon) is classified as a header page by the code's pattern
`Store:\s?[A-Z]\d{4}`, but does not contain the claim's marker
"Store: " (with a space) followed by a letter and four digits. -/
theorem c3_header_counterexample :
    is_header_page exC3 = true ∧ headerClaimB exC3 = false := by decide

/-- Claim C3 (amended): the segmenter classifies a page as a header
page iff its text contains `Store:` followed by an optional single
whitespace character, then exactly one uppercase letter and four
digits (`\s?` makes the space optional, and the letter must be
uppercase). -/
theorem c3_header_iff (t : Str) : is_header_page t = true ↔ AmendedHeader t := by
  unfold is_header_page AmendedHeader
  rw [List.any_eq_true]
  constructor
  · rintro ⟨l, hl, hAt⟩
    rw [List.mem_tails] at hl
    obtain ⟨pre, hpre⟩ := hl
    unfold headerAt at hAt
    rw [Bool.and_eq_true] at hAt
    obtain ⟨hsp, hrest⟩ := hAt
    rw [isPrefixOf_ex] at hsp
    obtain ⟨r, hr⟩ := hsp
    have hdrop : l.drop 6 = r := by
      rw [← hr]
      exact List.drop_left sStoreColon r
    rw [hdrop] at hrest
    rw [Bool.or_eq_true] at hrest
    rcases hrest with h1 | h1
    · rw [headerTail_ex] at h1
      obtain ⟨c, d1, d2, d3, d4, post, hre, hu, hD1, hD2, hD3, hD4⟩ := h1
      refine ⟨pre, [], c, d1, d2, d3, d4, post, ?_, Or.inl rfl, hu, hD1, hD2, hD3, hD4⟩
      rw [← hpre, ← hr, hre]
      simp
    · cases r with
      | nil => exact absurd (h1 : false = true) (by decide)
      | cons w r2 =>
        obtain ⟨hw, ht2⟩ := Bool.and_eq_true _ _ |>.mp (h1 : (isPyWS w && headerTail r2) = true)
        rw [headerTail_ex] at ht2
        obtain ⟨c, d1, d2, d3, d4, post, hre, hu, hD1, hD2, hD3, hD4⟩ := ht2
        refine ⟨pre, [w], c, d1, d2, d3, d4, post, ?_, Or.inr ⟨w, rfl, hw⟩,
          hu, hD1, hD2, hD3, hD4⟩
        rw [← hpre, ← hr, hre]
        simp
  · rintro ⟨pre, mid, c, d1, d2, d3, d4, post, hte, hmid, hu, hD1, hD2, hD3, hD4⟩
    refine ⟨sStoreColon ++ mid ++ c :: d1 :: d2 :: d3 :: d4 :: post, ?_, ?_⟩
    · rw [List.mem_tails]
      exact ⟨pre, by rw [hte]; simp⟩
    · unfold headerAt
      rw [Bool.and_eq_true]
      constructor
      · rw [isPrefixOf_ex]
        exact ⟨mid ++ c :: d1 :: d2 :: d3 :: d4 :: post, by simp⟩
      · have hdrop : (sStoreColon ++ mid ++ c :: d1 :: d2 :: d3 :: d4 :: post).drop 6
            = mid ++ c :: d1 :: d2 :: d3 :: d4 :: post := by
          rw [List.append_assoc]
          exact List.drop_left sStoreColon _
        rw [hdrop]
        rw [Bool.or_eq_true]
        rcases hmid with rfl | ⟨w, rfl, hw⟩
        · left
          rw [List.nil_append, headerTail_ex]
          exact ⟨c, d1, d2, d3, d4, post, rfl, hu, hD1, hD2, hD3, hD4⟩
        · right
          show (isPyWS w && headerTail (c :: d1 :: d2 :: d3 :: d4 :: post)) = true
          rw [Bool.and_eq_true, headerTail_ex]
          exact ⟨hw, c, d1, d2, d3, d4, post, rfl, hu, hD1, hD2, hD3, hD4⟩

-- ===========================================================================
-- Store-segmentation invariant (claim C7).

theorem idxInv_mono (n : ℕ) (st : IdxState) (h : idxInv n st) : idxInv (n + 1) st :=
  ⟨h.1, fun l hl => ⟨(h.2 l hl).1, fun x hx => Nat.lt_succ_of_lt ((h.2 l hl).2 x hx)⟩⟩

theorem indexStep_inv (st : IdxState) (n : ℕ) (p : Option Str) (h : idxInv n st) :
    idxInv (n + 1) (indexStep st n p) := by
  cases p with
  | none => exact idxInv_mono n st h
  | some text =>
    unfold indexStep
    dsimp only
    by_cases hb : pyStrip text = []
    · rw [if_pos hb]
      exact idxInv_mono n st h
    · rw [if_neg hb]
      by_cases hh : is_header_page text = true
      · rw [if_pos hh]
        constructor
        · intro r hr
          cases hc : st.current with
          | none =>
            simp only [hc] at hr
            exact h.1 r hr
          | some pgs =>
            simp only [hc] at hr
            rw [List.mem_append] at hr
            rcases hr with h1 | h1
            · exact h.1 r h1
            · rw [List.mem_singleton] at h1
              subst h1
              exact (h.2 pgs hc).1
        · intro l hl
          injection hl with hl2
          subst hl2
          refine ⟨List.chain'_singleton n, ?_⟩
          intro x hx
          rw [List.mem_singleton] at hx
          subst hx
          exact Nat.lt_succ_self _
      · rw [if_neg hh]
        constructor
        · intro r hr
          exact h.1 r hr
        · intro l hl
          cases hc : st.current with
          | none =>
            simp only [hc] at hl
            cases hl
          | some pgs =>
            simp only [hc] at hl
            injection hl with hl2
            subst hl2
            obtain ⟨hch, hbd⟩ := h.2 pgs hc
            constructor
            · rw [List.chain'_append]
              refine ⟨hch, List.chain'_singleton n, ?_⟩
              intro x hx y hy
              simp only [List.head?_cons, Option.mem_def, Option.some.injEq] at hy
              subst hy
              exact hbd x (getLast?_mem' pgs x (Option.mem_def.mp hx))
            · intro x hx
              rw [List.mem_append] at hx
              rcases hx with h1 | h1
              · exact Nat.lt_succ_of_lt (hbd x h1)
              · rw [List.mem_singleton] at h1
                subst h1
                exact Nat.lt_succ_self _

theorem indexLoop_inv : ∀ (doc : List (Option Str)) (n : ℕ) (st : IdxState),
    idxInv n st →
    (∀ r ∈ (indexLoop n doc st).stores, List.Chain' (· < ·) r.pages) ∧
    (∀ l, (indexLoop n doc st).current = some l → List.Chain' (· < ·) l) := by
  intro doc
  induction doc with
  | nil =>
    intro n st h
    exact ⟨h.1, fun l hl => (h.2 l hl).1⟩
  | cons p rest ih =>
    intro n st h
    exact ih (n + 1) _ (indexStep_inv st n p h)

/-- Claim C7, counterexample: a store spanning a blank middle page has
the non-contiguous page list `[0, 2]` (the blank page is skipped, not
recorded), so page lists are not always contiguous runs. -/
theorem c7_pages_gap_counterexample :
    (index_stores exC7doc3).map (fun r => r.pages) = [[0, 2]] ∧
    ¬ List.Chain' (fun a b => b = a + 1) [0, 2] := by
  constructor
  · decide
  · intro h
    exact absurd (List.chain'_cons.mp h).1 (by decide)

/-- Claim C7 (amended): every StoreRecord produced by `index_stores`
has a strictly increasing `pages` list (and the store-less prefix of
pages before the first header belongs to no store); the list is not
necessarily contiguous, because pages whose text extraction fails or
whose text is whitespace-only are skipped and leave gaps. -/
theorem c7_pages_increasing (doc : List (Option Str)) (r : StoreRec)
    (hr : r ∈ index_stores doc) : List.Chain' (· < ·) r.pages := by
  unfold index_stores at hr
  have hinv0 : idxInv 0 {} :=
    ⟨fun r2 h2 => absurd h2 (List.not_mem_nil r2), fun l hl => Option.noConfusion hl⟩
  obtain ⟨hs, hc⟩ := indexLoop_inv doc 0 {} hinv0
  cases hcur : (indexLoop 0 doc {}).current with
  | none =>
    simp only [hcur] at hr
    exact hs r hr
  | some pgs =>
    simp only [hcur] at hr
    rw [List.mem_append] at hr
    rcases hr with h1 | h1
    · exact hs r h1
    · rw [List.mem_singleton] at h1
      subst h1
      exact hc pgs hcur

/-- Witness for C7's amended theorem at a concrete one-page document. -/
theorem c7_pages_increasing_witness :
    ((index_stores exC7doc).headI ∈ index_stores exC7doc) ∧
    List.Chain' (· < ·) ((index_stores exC7doc).headI).pages :=
  ⟨by decide, c7_pages_increasing exC7doc _ (by decide)⟩

-- ===========================================================================
-- Kit-grouping lemmas (claims C1 and C6).

theorem wobStep_snd : ∀ (items : List Item) (r : List (Str × Str)) (w : List (Str × ℤ)),
    (items.foldl wobStep (r, w)).2 = w ++ storeWobPairs items := by
  intro items
  induction items with
  | nil => intro r w; simp [storeWobPairs]
  | cons it rest ih =>
    intro r w
    simp only [List.foldl_cons]
    by_cases ht : canon it.type = TYPE_SHELF_WOBBLER_CANON
    · by_cases hp : is_predetermined_wobbler it.promo = true
      · rw [show wobStep (r, w) it = (r, w) from by simp [wobStep, ht, hp]]
        rw [ih r w]
        congr 1
        simp [storeWobPairs, List.filterMap_cons, ht, hp]
      · rw [show wobStep (r, w) it =
            (odSetdefault r (canon it.promo) it.promo, w ++ [(canon it.promo, it.qty)]) from by
          simp [wobStep, ht, hp]]
        rw [ih]
        rw [show storeWobPairs (it :: rest) = (canon it.promo, it.qty) :: storeWobPairs rest from by
          simp [storeWobPairs, List.filterMap_cons, ht, hp]]
        simp
    · rw [show wobStep (r, w) it = (r, w) from by simp [wobStep, ht]]
      rw [ih r w]
      congr 1
      simp [storeWobPairs, List.filterMap_cons, ht]

theorem odLookupSig_mem : ∀ (m : List (Sig × List (Str × Str))) (k : Sig) (v : List (Str × Str)),
    odLookupSig m k = some v → (k, v) ∈ m := by
  intro m
  induction m with
  | nil => intro k v h; cases h
  | cons hd tl ih =>
    intro k v h
    obtain ⟨k2, v2⟩ := hd
    unfold odLookupSig at h
    by_cases he : k2 = k
    · rw [if_pos he] at h
      injection h with h2
      subst he
      subst h2
      exact List.mem_cons_self _ _
    · rw [if_neg he] at h
      exact List.mem_cons_of_mem _ (ih k v h)

theorem odLookupSig_odAppend_self :
    ∀ (m : List (Sig × List (Str × Str))) (k : Sig) (v : Str × Str),
    odLookupSig (odAppend m k v) k = some ((odLookupSig m k).getD [] ++ [v]) := by
  intro m
  induction m with
  | nil => intro k v; simp [odAppend, odLookupSig]
  | cons hd tl ih =>
    intro k v
    obtain ⟨k2, l2⟩ := hd
    by_cases he : k2 = k
    · rw [show odAppend ((k2, l2) :: tl) k v = (k2, l2 ++ [v]) :: tl from by
        simp [odAppend, he]]
      unfold odLookupSig
      rw [if_pos he, if_pos he]
      simp
    · rw [show odAppend ((k2, l2) :: tl) k v = (k2, l2) :: odAppend tl k v from by
        simp [odAppend, he]]
      unfold odLookupSig
      rw [if_neg he, if_neg he]
      exact ih k v

theorem odLookupSig_odAppend_other :
    ∀ (m : List (Sig × List (Str × Str))) (k : Sig) (v : Str × Str) (k2 : Sig),
    k2 ≠ k → odLookupSig (odAppend m k v) k2 = odLookupSig m k2 := by
  intro m
  induction m with
  | nil =>
    intro k v k2 hne
    simp only [odAppend, odLookupSig]
    rw [if_neg (fun hcc => hne hcc.symm)]
  | cons hd tl ih =>
    intro k v k2 hne
    obtain ⟨k3, l3⟩ := hd
    by_cases he : k3 = k
    · rw [show odAppend ((k3, l3) :: tl) k v = (k3, l3 ++ [v]) :: tl from by
        simp [odAppend, he]]
      unfold odLookupSig
      have hne2 : k3 ≠ k2 := by rw [he]; exact fun hcc => hne hcc.symm
      rw [if_neg hne2, if_neg hne2]
    · rw [show odAppend ((k3, l3) :: tl) k v = (k3, l3) :: odAppend tl k v from by
        simp [odAppend, he]]
      unfold odLookupSig
      by_cases he2 : k3 = k2
      · rw [if_pos he2, if_pos he2]
      · rw [if_neg he2, if_neg he2]
        exact ih k v k2 hne

theorem kitStep_lookup_mono (st : RepCombos) (s : Store) (k : Sig) (e : Str × Str)
    (h : ∃ l, odLookupSig st.combos k = some l ∧ e ∈ l) :
    ∃ l, odLookupSig (kitStep st s).combos k = some l ∧ e ∈ l := by
  obtain ⟨l, hl, he⟩ := h
  unfold kitStep
  dsimp only
  split
  · exact ⟨l, hl, he⟩
  · by_cases hk : k = sortPairs (s.items.foldl wobStep (st.rep, [])).2
    · subst hk
      rw [odLookupSig_odAppend_self]
      refine ⟨_, rfl, ?_⟩
      rw [hl]
      simp only [Option.getD_some]
      exact List.mem_append.mpr (Or.inl he)
    · rw [odLookupSig_odAppend_other _ _ _ _ hk]
      exact ⟨l, hl, he⟩

theorem kitFold_lookup_mono : ∀ (stores : List Store) (st : RepCombos) (k : Sig) (e : Str × Str),
    (∃ l, odLookupSig st.combos k = some l ∧ e ∈ l) →
    ∃ l, odLookupSig ((stores.foldl kitStep st).combos) k = some l ∧ e ∈ l := by
  intro stores
  induction stores with
  | nil => intro st k e h; exact h
  | cons a rest ih =>
    intro st k e h
    simp only [List.foldl_cons]
    exact ih (kitStep st a) k e (kitStep_lookup_mono st a k e h)

theorem kitStep_adds (st : RepCombos) (s : Store)
    (hq : 2 ≤ (storeWobPairs s.items).length) :
    ∃ l, odLookupSig ((kitStep st s).combos) (sortPairs (storeWobPairs s.items)) = some l ∧
      (s.store_id, s.store_name) ∈ l := by
  unfold kitStep
  dsimp only
  have hw : (s.items.foldl wobStep (st.rep, [])).2 = storeWobPairs s.items := by
    rw [wobStep_snd]
    exact List.nil_append _
  rw [hw]
  rw [if_neg (by omega)]
  rw [odLookupSig_odAppend_self]
  exact ⟨_, rfl, List.mem_append.mpr (Or.inr (List.mem_singleton.mpr rfl))⟩

theorem kitCombos_mem : ∀ (stores : List Store) (st : RepCombos) (s : Store),
    s ∈ stores → 2 ≤ (storeWobPairs s.items).length →
    ∃ l, odLookupSig ((stores.foldl kitStep st).combos)
        (sortPairs (storeWobPairs s.items)) = some l ∧
      (s.store_id, s.store_name) ∈ l := by
  intro stores
  induction stores with
  | nil => intro st s hs; cases hs
  | cons a rest ih =>
    intro st s hs hq
    simp only [List.foldl_cons]
    rcases List.mem_cons.mp hs with rfl | hmem
    · exact kitFold_lookup_mono rest _ _ _ (kitStep_adds st s hq)
    · exact ih (kitStep st a) s hmem hq

theorem kitCombos_mem' (stores : List Store) (s : Store)
    (hs : s ∈ stores) (hq : 2 ≤ (storeWobPairs s.items).length) :
    ∃ l, odLookupSig (kitCombos stores).combos
        (sortPairs (storeWobPairs s.items)) = some l ∧
      (s.store_id, s.store_name) ∈ l :=
  kitCombos_mem stores {} s hs hq

theorem sortPairs_eq_of_perm {a b : List (Str × ℤ)} (h : a.Perm b) :
    sortPairs a = sortPairs b := by
  apply List.eq_of_perm_of_sorted (r := pairLe)
  · exact (List.perm_insertionSort pairLe a).trans
      (h.trans (List.perm_insertionSort pairLe b).symm)
  · exact List.sorted_insertionSort pairLe a
  · exact List.sorted_insertionSort pairLe b

theorem buildKits_mem :
    ∀ (combos : List (Sig × List (Str × Str))) (min_stores idx : ℕ)
      (rep : List (Str × Str)) (k : Sig) (l : List (Str × Str)),
    (k, l) ∈ combos → min_stores ≤ l.length →
    ∃ kit ∈ buildKits min_stores rep idx combos,
      kit.store_ids = l.map Prod.fst ∧ kit.store_count = l.length := by
  intro combos
  induction combos with
  | nil => intro _ _ _ _ _ h; cases h
  | cons hd tl ih =>
    intro min idx rep k l hm hlen
    obtain ⟨k2, l2⟩ := hd
    rcases List.mem_cons.mp hm with he | hmem
    · cases he
      refine ⟨{ kit_name := Nat.toDigits 10 idx,
                items := k.map (fun pq => ((odLookup rep pq.1).getD [], pq.2)),
                stores := sortStrs (l.map (fun sn => sn.2)),
                store_ids := l.map (fun sn => sn.1),
                store_count := l.length }, ?_, rfl, rfl⟩
      simp only [buildKits]
      rw [if_neg (by omega)]
      exact List.mem_cons_self _ _
    · by_cases hlt : l2.length < min
      · obtain ⟨kit, hk1, hk2⟩ := ih min idx rep k l hmem hlen
        refine ⟨kit, ?_, hk2⟩
        simp only [buildKits]
        rw [if_pos hlt]
        exact hk1
      · obtain ⟨kit, hk1, hk2⟩ := ih min (idx + 1) rep k l hmem hlen
        refine ⟨kit, ?_, hk2⟩
        simp only [buildKits]
        rw [if_neg hlt]
        exact List.mem_cons_of_mem _ hk1

theorem mem_group_kits (stores : List Store) (min_stores : ℕ) (kit : Kit)
    (h : kit ∈ buildKits min_stores (kitCombos stores).rep 1 (kitCombos stores).combos) :
    kit ∈ (group_wobbler_kits stores min_stores).1 := by
  unfold group_wobbler_kits
  dsimp only
  exact ((List.perm_insertionSort kitDescLe _).mem_iff).mpr h

theorem odAppend_keys (m : List (Sig × List (Str × Str))) (k : Sig) (v : Str × Str) :
    (odAppend m k v).map Prod.fst =
      if k ∈ m.map Prod.fst then m.map Prod.fst else m.map Prod.fst ++ [k] := by
  induction m with
  | nil => simp [odAppend]
  | cons hd tl ih =>
    obtain ⟨k2, l⟩ := hd
    by_cases he : k2 = k
    · subst he
      rw [show odAppend ((k2, l) :: tl) k2 v = (k2, l ++ [v]) :: tl from by
        simp [odAppend]]
      simp
    · rw [show odAppend ((k2, l) :: tl) k v = (k2, l) :: odAppend tl k v from by
        simp [odAppend, he]]
      simp only [List.map_cons]
      rw [ih]
      by_cases hm : k ∈ tl.map Prod.fst
      · rw [if_pos hm, if_pos (by simp [hm])]
      · rw [if_neg hm, if_neg ?_]
        · simp
        · simp only [List.mem_cons]
          rintro (h2 | h2)
          · exact he h2.symm
          · exact hm h2

theorem kitCombos_keys : ∀ (stores : List Store) (st : RepCombos),
    ((stores.foldl kitStep st).combos).map Prod.fst =
      stores.foldl (fun ks s =>
        match qualSig s with
        | none => ks
        | some k => if k ∈ ks then ks else ks ++ [k]) (st.combos.map Prod.fst) := by
  intro stores
  induction stores with
  | nil => intro st; rfl
  | cons a rest ih =>
    intro st
    simp only [List.foldl_cons]
    rw [ih]
    congr 1
    unfold kitStep qualSig
    dsimp only
    have hw : (a.items.foldl wobStep (st.rep, [])).2 = storeWobPairs a.items := by
      rw [wobStep_snd]
      exact List.nil_append _
    rw [hw]
    by_cases hq : (storeWobPairs a.items).length ≤ 1
    · rw [if_pos hq, if_pos hq]
    · rw [if_neg hq, if_neg hq]
      exact odAppend_keys st.combos _ _

theorem kitCombos_keys' (stores : List Store) :
    (kitCombos stores).combos.map Prod.fst = encounterKeys stores :=
  kitCombos_keys stores {}

theorem buildKits_names :
    ∀ (combos : List (Sig × List (Str × Str))) (min_stores idx : ℕ)
      (rep : List (Str × Str)),
    (buildKits min_stores rep idx combos).map Kit.kit_name =
      (List.range (buildKits min_stores rep idx combos).length).map
        (fun j => Nat.toDigits 10 (idx + j)) := by
  intro combos
  induction combos with
  | nil => intro min idx rep; rfl
  | cons hd tl ih =>
    intro min idx rep
    obtain ⟨k, sl⟩ := hd
    by_cases hlt : sl.length < min
    · simp only [buildKits]
      rw [if_pos hlt]
      exact ih min idx rep
    · simp only [buildKits]
      rw [if_neg hlt]
      simp only [List.map_cons, List.length_cons]
      rw [ih min (idx + 1) rep]
      rw [List.range_succ_eq_map]
      simp only [List.map_cons, List.map_map]
      have hfg : ((fun j => Nat.toDigits 10 (idx + j)) ∘ Nat.succ) =
          (fun j => Nat.toDigits 10 (idx + 1 + j)) := by
        funext j
        simp only [Function.comp_apply]
        congr 1
        omega
      rw [hfg]
      simp

theorem group_kits_sorted (stores : List Store) (min_stores : ℕ) :
    List.Sorted kitDescLe ((group_wobbler_kits stores min_stores).1) := by
  unfold group_wobbler_kits
  dsimp only
  exact List.sorted_insertionSort kitDescLe _

theorem group_kits_perm (stores : List Store) (min_stores : ℕ) :
    ((group_wobbler_kits stores min_stores).1).Perm
      (buildKits min_stores (kitCombos stores).rep 1 (kitCombos stores).combos) := by
  unfold group_wobbler_kits
  dsimp only
  exact List.perm_insertionSort _ _

-- ===========================================================================
-- Claims C1 and C6.

/-- Claim C1: kit grouping is order-insensitive and threshold-exact.
Any two stores of the input whose qualifying (canonical-promo, qty)
wobbler pair multisets agree (each with at least two pairs) are
recorded in the same signature group of `group_wobbler_kits`'s combos
dictionary, and whenever that group meets the threshold the resulting
kit lists both store ids.  With `min_stores = 10`, the concrete
signature group with exactly 9 qualifying stores produces no kit,
while the one with exactly 10 produces a single kit holding all ten
stores. -/
theorem c1_kit_grouping :
    (∀ (stores : List Store) (min_stores : ℕ) (s1 s2 : Store),
      s1 ∈ stores → s2 ∈ stores →
      2 ≤ (storeWobPairs s1.items).length →
      (storeWobPairs s1.items).Perm (storeWobPairs s2.items) →
      ∃ l, odLookupSig (kitCombos stores).combos
            (sortPairs (storeWobPairs s1.items)) = some l ∧
        (s1.store_id, s1.store_name) ∈ l ∧ (s2.store_id, s2.store_name) ∈ l ∧
        (min_stores ≤ l.length →
          ∃ kit ∈ (group_wobbler_kits stores min_stores).1,
            s1.store_id ∈ kit.store_ids ∧ s2.store_id ∈ kit.store_ids)) ∧
    group_wobbler_kits exC1stores9 10 = ([], []) ∧
    ((group_wobbler_kits exC1stores10 10).1).map Kit.store_count = [10] ∧
    (∀ s ∈ exC1stores10, ∀ kit ∈ (group_wobbler_kits exC1stores10 10).1,
      s.store_id ∈ kit.store_ids) := by
  refine ⟨?_, by decide, by decide, by decide⟩
  intro stores min_stores s1 s2 h1 h2 hlen hperm
  have hlen2 : 2 ≤ (storeWobPairs s2.items).length := by
    rw [← hperm.length_eq]
    exact hlen
  have hsig : sortPairs (storeWobPairs s1.items) = sortPairs (storeWobPairs s2.items) :=
    sortPairs_eq_of_perm hperm
  obtain ⟨l1, hl1, he1⟩ := kitCombos_mem' stores s1 h1 hlen
  obtain ⟨l2, hl2, he2⟩ := kitCombos_mem' stores s2 h2 hlen2
  rw [← hsig] at hl2
  have hl12 : l1 = l2 := by
    rw [hl1] at hl2
    injection hl2
  subst hl12
  refine ⟨l1, hl1, he1, he2, ?_⟩
  intro hminc
  obtain ⟨kit, hkmem, hkids, _⟩ :=
    buildKits_mem (kitCombos stores).combos min_stores 1 (kitCombos stores).rep
      _ l1 (odLookupSig_mem _ _ _ hl1) hminc
  refine ⟨kit, mem_group_kits stores min_stores kit hkmem, ?_, ?_⟩
  · rw [hkids]
    exact List.mem_map.mpr ⟨(s1.store_id, s1.store_name), he1, rfl⟩
  · rw [hkids]
    exact List.mem_map.mpr ⟨(s2.store_id, s2.store_name), he2, rfl⟩

/-- Witness for C1 at two concrete stores listing the same two wobbler
pairs in opposite orders. -/
theorem c1_kit_grouping_witness :
    ∃ l, odLookupSig (kitCombos exC1pair).combos
          (sortPairs (storeWobPairs exC1sA.items)) = some l ∧
      (exC1sA.store_id, exC1sA.store_name) ∈ l ∧
      (exC1sB.store_id, exC1sB.store_name) ∈ l ∧
      (2 ≤ l.length →
        ∃ kit ∈ (group_wobbler_kits exC1pair 2).1,
          exC1sA.store_id ∈ kit.store_ids ∧ exC1sB.store_id ∈ kit.store_ids) :=
  c1_kit_grouping.1 exC1pair 2 exC1sA exC1sB (by decide) (by decide) (by decide)
    (by decide)

/-- Claim C6: kit labels are the sequential decimal strings "1", "2",
... assigned to the retained groups in the order their signatures were
first encountered in the store list (the `combos` keys are exactly the
first occurrences of the qualifying signatures, in store order, and the
pre-sort kit list is labelled `1..k` along it); the returned kit list
is that list sorted by descending store count; and on the concrete
input whose first-encountered group is smaller, the final label order
is ["2", "1"], differing from the label assignment order. -/
theorem c6_kit_labels :
    (∀ (stores : List Store) (min_stores : ℕ),
      List.Sorted kitDescLe ((group_wobbler_kits stores min_stores).1) ∧
      ((group_wobbler_kits stores min_stores).1).Perm
        (buildKits min_stores (kitCombos stores).rep 1 (kitCombos stores).combos) ∧
      (kitCombos stores).combos.map Prod.fst = encounterKeys stores ∧
      (buildKits min_stores (kitCombos stores).rep 1 (kitCombos stores).combos).map
          Kit.kit_name =
        (List.range
          (buildKits min_stores (kitCombos stores).rep 1 (kitCombos stores).combos).length).map
          (fun j => Nat.toDigits 10 (1 + j))) ∧
    ((group_wobbler_kits exC6stores 2).1).map Kit.kit_name =
      [("2").toList, ("1").toList] := by
  refine ⟨?_, by decide⟩
  intro stores min_stores
  exact ⟨group_kits_sorted stores min_stores, group_kits_perm stores min_stores,
    kitCombos_keys' stores, buildKits_names _ min_stores 1 _⟩

end KF
